import Mathlib

/-!
Verification of the circle computational-geometry kernel and quadrant-bucketed
spatial index of the point-in-circle simulation (Typescript Math Toolkit
utilities plus the bucket/query logic of `PicCanvasDirective`).

Numbers are modelled exactly: the purely arithmetic/comparison functions
(`TSMT$PointInCircle`, `TSMT$getQuadrant`, the quadrant buckets and the
membership engine) are embedded over `ℚ`, so they are executable and
decidable; functions using `Math.sqrt` / `Math.acos` / `Math.sin` are
embedded over `ℝ` with `Real.sqrt` / `Real.arccos` / `Real.sin`.
Where IEEE `NaN` propagation is the very behaviour under study
(`TSMT$CircleSegmentIntersection`), `NaN` is modelled explicitly with
`Option ℝ` (`none` = `NaN`); every comparison against `NaN` is `false`.
-/

namespace PicKernel

/-- Embedding of `TSMT$PointInCircle` (circle-util-functions.ts, lines 614-631):
axis-aligned bounding-box fast reject of the point against the circle's AABB,
then the squared-distance test `dx*dx + dy*dy <= r*r`. -/
def TSMT_PointInCircle (px py xc yc r : ℚ) : Bool :=
  if py > yc + r ∨ py < yc - r then false
  else if px > xc + r ∨ px < xc - r then false
  else decide ((px - xc) * (px - xc) + (py - yc) * (py - yc) ≤ r * r)

/-- Embedding of `TSMT$getQuadrant` (geom-util-functions.ts, lines 41-81):
quadrant of a point relative to a rectangle, with the vertical sense detected
from comparing `top` and `bottom`; returns 0 when no branch fires. -/
def TSMT_getQuadrant (px py left top right bottom : ℚ) : ℕ :=
  let xc := (left + right) / 2
  let yc := (bottom + top) / 2
  let yDown : Bool := decide (top ≤ bottom)
  let xgt : Bool := decide (px ≥ xc) && decide (px ≤ right)
  let xlt : Bool := decide (px ≤ xc) && decide (px ≥ left)
  let yhigh : Bool :=
    if yDown then decide (py ≤ yc) && decide (py ≥ top)
    else decide (py ≥ yc) && decide (py ≤ top)
  let ylow : Bool :=
    if yDown then decide (py ≥ yc) && decide (py ≤ bottom)
    else decide (py ≤ yc) && decide (py ≥ bottom)
  if xgt && yhigh then 1
  else if xgt && ylow then 2
  else if xlt && ylow then 3
  else if xlt && yhigh then 4
  else 0

/-- The squared-distance characterization of the point-in-circle test for a
nonnegative radius: the fast-reject guards never change the result. -/
lemma pointInCircle_eq_true_iff_sq (px py xc yc r : ℚ) (hr : 0 ≤ r) :
    TSMT_PointInCircle px py xc yc r = true ↔
      (px - xc) ^ 2 + (py - yc) ^ 2 ≤ r ^ 2 := by
  unfold TSMT_PointInCircle
  split_ifs with h1 h2
  · simp only [Bool.false_eq_true, false_iff, not_le]
    rcases h1 with h | h
    · nlinarith [sq_nonneg (px - xc)]
    · nlinarith [sq_nonneg (px - xc)]
  · simp only [Bool.false_eq_true, false_iff, not_le]
    rcases h2 with h | h
    · nlinarith [sq_nonneg (py - yc)]
    · nlinarith [sq_nonneg (py - yc)]
  · simp only [decide_eq_true_eq]
    constructor <;> intro h <;> nlinarith

/-- When the point-in-circle test succeeds, the point lies in the circle's
axis-aligned bounding box (the negation of the fast-reject guards). -/
lemma pointInCircle_true_bounds {px py xc yc r : ℚ}
    (h : TSMT_PointInCircle px py xc yc r = true) :
    xc - r ≤ px ∧ px ≤ xc + r ∧ yc - r ≤ py ∧ py ≤ yc + r := by
  unfold TSMT_PointInCircle at h
  split_ifs at h with h1 h2
  · push_neg at h1 h2
    exact ⟨h2.2, h2.1, h1.2, h1.1⟩

/-- C1: for every point, center and radius `r ≥ 0`, `TSMT$PointInCircle`
returns `true` if and only if the Euclidean distance from the point to the
center is at most `r`; the bounding-box fast-reject guards never change this
result, and a point exactly on the boundary counts as inside. -/
theorem tsmt_pointInCircle_iff_distance_le (px py xc yc r : ℚ) (hr : 0 ≤ r) :
    TSMT_PointInCircle px py xc yc r = true ↔
      Real.sqrt (((px : ℝ) - xc) ^ 2 + ((py : ℝ) - yc) ^ 2) ≤ (r : ℝ) := by
  rw [pointInCircle_eq_true_iff_sq px py xc yc r hr, Real.sqrt_le_iff]
  constructor
  · intro h
    exact ⟨by exact_mod_cast hr, by exact_mod_cast h⟩
  · rintro ⟨-, h⟩
    exact_mod_cast h

/-- Witness for C1: the point `(3,4)` lies in the circle of radius 5 at the
origin, and the theorem applies there (distance `√25 = 5 ≤ 5`: a boundary
point counts as inside). -/
theorem tsmt_pointInCircle_iff_distance_le_witness :
    TSMT_PointInCircle 3 4 0 0 5 = true :=
  (tsmt_pointInCircle_iff_distance_le 3 4 0 0 5 (by norm_num)).mpr (by
    have h : ((3 : ℝ) - 0) ^ 2 + ((4 : ℝ) - 0) ^ 2 = 5 ^ 2 := by norm_num
    rw [show (((3 : ℚ) : ℝ) - ((0 : ℚ) : ℝ)) ^ 2 + (((4 : ℚ) : ℝ) - ((0 : ℚ) : ℝ)) ^ 2
        = ((5 : ℝ)) ^ 2 by push_cast; norm_num]
    rw [Real.sqrt_sq (by norm_num : (0 : ℝ) ≤ 5)]
    norm_num)

/-- Spec-side predicate: the point lies in the closed test rectangle (either
vertical sense). -/
def insideRect (px py left top right bottom : ℚ) : Prop :=
  left ≤ px ∧ px ≤ right ∧ min top bottom ≤ py ∧ py ≤ max top bottom

instance (px py left top right bottom : ℚ) :
    Decidable (insideRect px py left top right bottom) := by
  unfold insideRect; exact inferInstance

/-- Spec-side predicate: the point's y-coordinate lies in the near-top half of
the rectangle, honoring the vertical sense detected from `top ≤ bottom`. -/
def specNearTop (py top bottom : ℚ) : Prop :=
  if top ≤ bottom then py ≤ (bottom + top) / 2 else (bottom + top) / 2 ≤ py

instance (py top bottom : ℚ) : Decidable (specNearTop py top bottom) := by
  unfold specNearTop; exact inferInstance

/-- Spec-side predicate: the point's y-coordinate lies in the near-bottom half
of the rectangle, honoring the detected vertical sense. -/
def specNearBottom (py top bottom : ℚ) : Prop :=
  if top ≤ bottom then (bottom + top) / 2 ≤ py else py ≤ (bottom + top) / 2

instance (py top bottom : ℚ) : Decidable (specNearBottom py top bottom) := by
  unfold specNearBottom; exact inferInstance

/-- Prop form of the code's `yhigh` condition (sense-aware, with the range
bound against `top`). -/
def codeYHigh (py top bottom : ℚ) : Prop :=
  if top ≤ bottom then py ≤ (bottom + top) / 2 ∧ top ≤ py
  else (bottom + top) / 2 ≤ py ∧ py ≤ top

instance (py top bottom : ℚ) : Decidable (codeYHigh py top bottom) := by
  unfold codeYHigh; exact inferInstance

/-- Prop form of the code's `ylow` condition. -/
def codeYLow (py top bottom : ℚ) : Prop :=
  if top ≤ bottom then (bottom + top) / 2 ≤ py ∧ py ≤ bottom
  else py ≤ (bottom + top) / 2 ∧ bottom ≤ py

instance (py top bottom : ℚ) : Decidable (codeYLow py top bottom) := by
  unfold codeYLow; exact inferInstance

/-- The Bool-level definition of `TSMT$getQuadrant` is the evident Prop-level
branch cascade. -/
lemma getQuadrant_eq_ite (px py l t r b : ℚ) :
    TSMT_getQuadrant px py l t r b =
      if ((l + r) / 2 ≤ px ∧ px ≤ r) ∧ codeYHigh py t b then 1
      else if ((l + r) / 2 ≤ px ∧ px ≤ r) ∧ codeYLow py t b then 2
      else if (px ≤ (l + r) / 2 ∧ l ≤ px) ∧ codeYLow py t b then 3
      else if (px ≤ (l + r) / 2 ∧ l ≤ px) ∧ codeYHigh py t b then 4
      else 0 := by
  by_cases ht : t ≤ b <;>
    simp [TSMT_getQuadrant, codeYHigh, codeYLow, ht, Bool.and_eq_true,
      decide_eq_true_eq]

/-- C5: for a rectangle with `left ≤ right`, `TSMT$getQuadrant` returns 0 iff
the point lies outside the closed rectangle; for a point inside, it returns
the first satisfying branch in the order 1 (right half, near-top half),
2 (right, near-bottom), 3 (left, near-bottom), 4 (left, near-top), with all
boundary comparisons inclusive and the y-sense detected from top/bottom. -/
theorem tsmt_getQuadrant_spec (px py left top right bottom : ℚ)
    (hlr : left ≤ right) :
    (TSMT_getQuadrant px py left top right bottom = 0 ↔
      ¬ insideRect px py left top right bottom) ∧
    (insideRect px py left top right bottom →
      TSMT_getQuadrant px py left top right bottom =
        if (left + right) / 2 ≤ px ∧ specNearTop py top bottom then 1
        else if (left + right) / 2 ≤ px ∧ specNearBottom py top bottom then 2
        else if px ≤ (left + right) / 2 ∧ specNearBottom py top bottom then 3
        else 4) := by
  rw [getQuadrant_eq_ite]
  rcases le_or_lt top bottom with ht | ht
  · have hmin : min top bottom = top := min_eq_left ht
    have hmax : max top bottom = bottom := max_eq_right ht
    simp only [insideRect, specNearTop, specNearBottom, codeYHigh, codeYLow,
      hmin, hmax, ht, if_true]
    constructor
    · constructor
      · intro h0 hin
        obtain ⟨ha, hb, hc, hd⟩ := hin
        split_ifs at h0 with h1 h2 h3 h4
        rcases le_total px ((left + right) / 2) with hx | hx <;>
            rcases le_total py ((bottom + top) / 2) with hy | hy
        · exact h4 ⟨⟨hx, ha⟩, hy, hc⟩
        · exact h3 ⟨⟨hx, ha⟩, hy, hd⟩
        · exact h1 ⟨⟨hx, hb⟩, hy, hc⟩
        · exact h2 ⟨⟨hx, hb⟩, hy, hd⟩
      · intro hout
        split_ifs with h1 h2 h3 h4
        · exact absurd ⟨by linarith [h1.1.1], h1.1.2, h1.2.2, by linarith [h1.2.1]⟩ hout
        · exact absurd ⟨by linarith [h2.1.1], h2.1.2, by linarith [h2.2.1], h2.2.2⟩ hout
        · exact absurd ⟨h3.1.2, by linarith [h3.1.1], by linarith [h3.2.1], h3.2.2⟩ hout
        · exact absurd ⟨h4.1.2, by linarith [h4.1.1], h4.2.2, by linarith [h4.2.1]⟩ hout
        · rfl
    · rintro ⟨ha, hb, hc, hd⟩
      have e1 : ((left + right) / 2 ≤ px ∧ px ≤ right) ∧
          (py ≤ (bottom + top) / 2 ∧ top ≤ py) ↔
          (left + right) / 2 ≤ px ∧ py ≤ (bottom + top) / 2 := by
        constructor
        · rintro ⟨⟨u, -⟩, v, -⟩; exact ⟨u, v⟩
        · rintro ⟨u, v⟩; exact ⟨⟨u, hb⟩, v, hc⟩
      have e2 : ((left + right) / 2 ≤ px ∧ px ≤ right) ∧
          ((bottom + top) / 2 ≤ py ∧ py ≤ bottom) ↔
          (left + right) / 2 ≤ px ∧ (bottom + top) / 2 ≤ py := by
        constructor
        · rintro ⟨⟨u, -⟩, v, -⟩; exact ⟨u, v⟩
        · rintro ⟨u, v⟩; exact ⟨⟨u, hb⟩, v, hd⟩
      have e3 : (px ≤ (left + right) / 2 ∧ left ≤ px) ∧
          ((bottom + top) / 2 ≤ py ∧ py ≤ bottom) ↔
          px ≤ (left + right) / 2 ∧ (bottom + top) / 2 ≤ py := by
        constructor
        · rintro ⟨⟨u, -⟩, v, -⟩; exact ⟨u, v⟩
        · rintro ⟨u, v⟩; exact ⟨⟨u, ha⟩, v, hd⟩
      simp only [e1, e2, e3]
      split_ifs with h1 h2 h3 h4
      · rfl
      · rfl
      · rfl
      · rfl
      · rcases le_total px ((left + right) / 2) with hx | hx <;>
          rcases le_total py ((bottom + top) / 2) with hy | hy
        · exact absurd ⟨⟨hx, ha⟩, hy, hc⟩ h4
        · exact absurd ⟨hx, hy⟩ h3
        · exact absurd ⟨hx, hy⟩ h1
        · exact absurd ⟨hx, hy⟩ h2
  · have hmin : min top bottom = bottom := min_eq_right ht.le
    have hmax : max top bottom = top := max_eq_left ht.le
    have ht' : ¬ top ≤ bottom := not_le.mpr ht
    simp only [insideRect, specNearTop, specNearBottom, codeYHigh, codeYLow,
      hmin, hmax, ht', if_false]
    constructor
    · constructor
      · intro h0 hin
        obtain ⟨ha, hb, hc, hd⟩ := hin
        split_ifs at h0 with h1 h2 h3 h4
        rcases le_total px ((left + right) / 2) with hx | hx <;>
            rcases le_total py ((bottom + top) / 2) with hy | hy
        · exact h3 ⟨⟨hx, ha⟩, hy, hc⟩
        · exact h4 ⟨⟨hx, ha⟩, hy, hd⟩
        · exact h2 ⟨⟨hx, hb⟩, hy, hc⟩
        · exact h1 ⟨⟨hx, hb⟩, hy, hd⟩
      · intro hout
        split_ifs with h1 h2 h3 h4
        · exact absurd ⟨by linarith [h1.1.1], h1.1.2, by linarith [h1.2.1], h1.2.2⟩ hout
        · exact absurd ⟨by linarith [h2.1.1], h2.1.2, h2.2.2, by linarith [h2.2.1]⟩ hout
        · exact absurd ⟨h3.1.2, by linarith [h3.1.1], h3.2.2, by linarith [h3.2.1]⟩ hout
        · exact absurd ⟨h4.1.2, by linarith [h4.1.1], by linarith [h4.2.1], h4.2.2⟩ hout
        · rfl
    · rintro ⟨ha, hb, hc, hd⟩
      have e1 : ((left + right) / 2 ≤ px ∧ px ≤ right) ∧
          ((bottom + top) / 2 ≤ py ∧ py ≤ top) ↔
          (left + right) / 2 ≤ px ∧ (bottom + top) / 2 ≤ py := by
        constructor
        · rintro ⟨⟨u, -⟩, v, -⟩; exact ⟨u, v⟩
        · rintro ⟨u, v⟩; exact ⟨⟨u, hb⟩, v, hd⟩
      have e2 : ((left + right) / 2 ≤ px ∧ px ≤ right) ∧
          (py ≤ (bottom + top) / 2 ∧ bottom ≤ py) ↔
          (left + right) / 2 ≤ px ∧ py ≤ (bottom + top) / 2 := by
        constructor
        · rintro ⟨⟨u, -⟩, v, -⟩; exact ⟨u, v⟩
        · rintro ⟨u, v⟩; exact ⟨⟨u, hb⟩, v, hc⟩
      have e3 : (px ≤ (left + right) / 2 ∧ left ≤ px) ∧
          (py ≤ (bottom + top) / 2 ∧ bottom ≤ py) ↔
          px ≤ (left + right) / 2 ∧ py ≤ (bottom + top) / 2 := by
        constructor
        · rintro ⟨⟨u, -⟩, v, -⟩; exact ⟨u, v⟩
        · rintro ⟨u, v⟩; exact ⟨⟨u, ha⟩, v, hc⟩
      simp only [e1, e2, e3]
      split_ifs with h1 h2 h3 h4
      · rfl
      · rfl
      · rfl
      · rfl
      · rcases le_total px ((left + right) / 2) with hx | hx <;>
          rcases le_total py ((bottom + top) / 2) with hy | hy
        · exact absurd ⟨hx, hy⟩ h3
        · exact absurd ⟨⟨hx, ha⟩, hy, hd⟩ h4
        · exact absurd ⟨hx, hy⟩ h2
        · exact absurd ⟨hx, hy⟩ h1

/-- Witness for C5: in the 100 by 100 screen-convention rectangle the point
at `(75, 25)` is inside and classifies to quadrant 1 (right half, near-top
half). -/
theorem tsmt_getQuadrant_spec_witness :
    TSMT_getQuadrant 75 25 0 0 100 100 = 1 := by
  have h := (tsmt_getQuadrant_spec 75 25 0 0 100 100 (by norm_num)).2
    (by constructor <;> norm_num [insideRect])
  rw [h]
  rw [if_pos ⟨by norm_num, by norm_num [specNearTop]⟩]

/-- A circle of the simulation. The directive stores circles in the master
array `_circleRefs` and sets `c.id = i.toString()` so that ids double as the
index into that array; the id is therefore modelled as the list index and
carried implicitly. -/
structure CircleQ where
  x : ℚ
  y : ℚ
  radius : ℚ
deriving DecidableEq

/-- The closed sub-rectangle of quadrant `q` of the test region, as
`(xlo, xhi, ylo, yhi)`, per the section 4.3 classifier conventions:
quadrants 1 and 2 take the right half, 3 and 4 the left half; quadrants 1
and 4 the near-top half and 2 and 3 the near-bottom half, with the vertical
sense detected from comparing top and bottom. -/
def quadrantRect (q : ℕ) (left top right bottom : ℚ) : ℚ × ℚ × ℚ × ℚ :=
  let xc := (left + right) / 2
  let yc := (bottom + top) / 2
  let xr : ℚ × ℚ := if q = 1 ∨ q = 2 then (xc, right) else (left, xc)
  let yr : ℚ × ℚ :=
    if q = 1 ∨ q = 4 then (min top yc, max top yc) else (min yc bottom, max yc bottom)
  (xr.1, xr.2, yr.1, yr.2)

/-- Modelled from the spec: `TSMT$Circle.inQuadrant` — class `TSMT$Circle`
(imported by the directive from `shared/libs/circle`) is not among the
available sources. Section 3 (QuadMap): "A circle's bounding box
(`center ± radius` square) intersecting a quadrant's rectangle places that
circle's id in that quadrant's set", and section 9 fixes the overlap test as
"circle's axis-aligned bounding square overlaps the quadrant rectangle".
Two closed intervals `[a,b]` and `[c,d]` overlap iff `a ≤ d ∧ c ≤ b`. -/
def inQuadrant (c : CircleQ) (q : ℕ) (left top right bottom : ℚ) : Bool :=
  let R := quadrantRect q left top right bottom
  decide (c.x - c.radius ≤ R.2.1 ∧ R.1 ≤ c.x + c.radius ∧
    c.y - c.radius ≤ R.2.2.2 ∧ R.2.2.1 ≤ c.y + c.radius)

/-- The id set of quadrant `q`'s bucket after `__initCircles`
(pic-canvas.directive.ts, lines 360-399): circle `i` is recorded in
`_quad<q>` exactly when `c.inQuadrant(q)` holds with bounds
`(0, 0, width, height)`; `Object.keys` later enumerates the ids in insertion
order, which is the index order. -/
def quadKeys (circles : List CircleQ) (w h : ℚ) (q : ℕ) : List ℕ :=
  (List.range circles.length).filter (fun i =>
    match circles.get? i with
    | some c => inQuadrant c q 0 0 w h
    | none => false)

/-- The membership engine's cursor: previous quadrant (initialized to `-1` in
the directive's constructor) and the cached candidate id list `_check`. -/
structure EngineState where
  prevQuad : ℤ
  check : List ℕ
deriving DecidableEq

/-- Point-in-circle test for the circle stored at index `id` of the master
array (`circ = this._circleRefs[+id]` in `next`). -/
def circleTest (circles : List CircleQ) (px py : ℚ) (id : ℕ) : Bool :=
  match circles.get? id with
  | some c => TSMT_PointInCircle px py c.x c.y c.radius
  | none => false

/-- One simulation step of `PicCanvasDirective.next` (lines 184-215), after
the externally supplied random walk has produced the new point `(px, py)`:
compute the current quadrant; if it is in 1..4, refresh the cached `_check`
list from the quadrant's bucket when the quadrant changed, then test every
candidate circle and emit the intersecting ids; otherwise leave the state
untouched and emit nothing. -/
def engineStep (circles : List CircleQ) (w h : ℚ) (st : EngineState)
    (px py : ℚ) : EngineState × List ℕ :=
  let q := TSMT_getQuadrant px py 0 0 w h
  if 0 < q ∧ q < 5 then
    let st' : EngineState :=
      if (q : ℤ) ≠ st.prevQuad then
        { prevQuad := (q : ℤ), check := quadKeys circles w h q }
      else st
    (st', st'.check.filter (circleTest circles px py))
  else (st, [])

/-- Iterated simulation steps over a sequence of point positions, collecting
the per-step intersection id lists. -/
def engineRun (circles : List CircleQ) (w h : ℚ) :
    EngineState → List (ℚ × ℚ) → EngineState × List (List ℕ)
  | st, [] => (st, [])
  | st, p :: ps =>
    let r := engineStep circles w h st p.1 p.2
    let rest := engineRun circles w h r.1 ps
    (rest.1, r.2 :: rest.2)

/-- C3: whenever the quadrant classifier returns 0 for the test point, the
engine's step leaves the cursor untouched and reports the empty intersection
list — no candidate is tested and no full-scan fallback occurs. -/
theorem tsmt_engineStep_quadrant_zero (circles : List CircleQ) (w h : ℚ)
    (st : EngineState) (px py : ℚ)
    (h0 : TSMT_getQuadrant px py 0 0 w h = 0) :
    engineStep circles w h st px py = (st, []) := by
  unfold engineStep
  rw [h0]
  simp

/-- Witness for C3: with one circle of radius 10 at `(95, 50)` in a 100 by
100 world, the point `(101, 50)` is outside the world rectangle (quadrant 0)
yet inside the circle; the step still returns the empty intersection list
and leaves the initial cursor untouched. -/
theorem tsmt_engineStep_quadrant_zero_witness :
    engineStep [⟨95, 50, 10⟩] 100 100 ⟨-1, []⟩ 101 50 = (⟨-1, []⟩, []) ∧
      TSMT_PointInCircle 101 50 95 50 10 = true :=
  ⟨tsmt_engineStep_quadrant_zero [⟨95, 50, 10⟩] 100 100 ⟨-1, []⟩ 101 50
    (by norm_num [TSMT_getQuadrant]), by norm_num [TSMT_PointInCircle]⟩

/-- A run whose every point classifies to the cursor's own quadrant `q`
(with `q` in 1..4) never refreshes the cache: the state is unchanged and
each step's result is the cached list filtered by the point test. -/
lemma engineRun_const_quad (circles : List CircleQ) (w h : ℚ) (q : ℕ)
    (hq1 : 0 < q) (hq2 : q < 5) :
    ∀ (ps : List (ℚ × ℚ)) (st : EngineState), st.prevQuad = (q : ℤ) →
    (∀ p ∈ ps, TSMT_getQuadrant p.1 p.2 0 0 w h = q) →
    engineRun circles w h st ps =
      (st, ps.map (fun p => st.check.filter (circleTest circles p.1 p.2))) := by
  intro ps
  induction ps with
  | nil => intro st _ _; simp [engineRun]
  | cons p ps ih =>
    intro st hprev hps
    have hp : TSMT_getQuadrant p.1 p.2 0 0 w h = q :=
      hps p (List.mem_cons_self p ps)
    have hstep : engineStep circles w h st p.1 p.2 =
        (st, st.check.filter (circleTest circles p.1 p.2)) := by
      unfold engineStep
      rw [hp, if_pos ⟨hq1, hq2⟩, if_neg (by rw [hprev]; exact fun hne => hne rfl)]
    have hrest := ih st hprev (fun p hp => hps p (List.mem_cons_of_mem _ hp))
    simp [engineRun, hstep, hrest]

/-- After one step in a quadrant `q` in 1..4, the cursor's previous quadrant
is `q` and the cache is the bucket of `q` when the quadrant changed, else the
old cache; the emitted result is that list filtered by the point test. -/
lemma engineStep_in_quad (circles : List CircleQ) (w h : ℚ)
    (st : EngineState) (px py : ℚ) (q : ℕ)
    (hq : TSMT_getQuadrant px py 0 0 w h = q) (hq1 : 0 < q) (hq2 : q < 5) :
    engineStep circles w h st px py =
      (⟨(q : ℤ), if (q : ℤ) ≠ st.prevQuad then quadKeys circles w h q
          else st.check⟩,
        (if (q : ℤ) ≠ st.prevQuad then quadKeys circles w h q
          else st.check).filter (circleTest circles px py)) := by
  unfold engineStep
  rw [hq, if_pos ⟨hq1, hq2⟩]
  by_cases hne : (q : ℤ) ≠ st.prevQuad
  · simp only [if_pos hne]
  · simp only [if_neg hne]
    push_neg at hne
    obtain ⟨pq, ck⟩ := st
    simp only at hne
    subst hne
    rfl

/-- Under a constant quadrant `q` in 1..4, every step's result is the same
fixed candidate list filtered by the current point. -/
lemma engineRun_results_map (circles : List CircleQ) (w h : ℚ) (q : ℕ)
    (hq1 : 0 < q) (hq2 : q < 5) (st : EngineState) (ps : List (ℚ × ℚ))
    (hps : ∀ p ∈ ps, TSMT_getQuadrant p.1 p.2 0 0 w h = q) :
    (engineRun circles w h st ps).2 =
      ps.map (fun p =>
        (if (q : ℤ) ≠ st.prevQuad then quadKeys circles w h q
          else st.check).filter (circleTest circles p.1 p.2)) := by
  rcases ps with _ | ⟨p, ps⟩
  · simp [engineRun]
  · have hp : TSMT_getQuadrant p.1 p.2 0 0 w h = q :=
      hps p (List.mem_cons_self p ps)
    have hstep := engineStep_in_quad circles w h st p.1 p.2 q hp hq1 hq2
    have hrest := engineRun_const_quad circles w h q hq1 hq2 ps
      ⟨(q : ℤ), if (q : ℤ) ≠ st.prevQuad then quadKeys circles w h q
        else st.check⟩ rfl (fun p hp => hps p (List.mem_cons_of_mem _ hp))
    simp only [engineRun, hstep, hrest, List.map_cons]

/-- C4: for a fixed circle set, (a) whenever the step's current quadrant `q`
is in 1..4 and differs from the cursor's previous quadrant, the cached
candidate list is replaced by exactly quadrant `q`'s bucket, independent of
any earlier history; and (b) over a sequence of steps whose points all
classify to one quadrant `q` in 1..4, identical point positions produce
identical intersection results. -/
theorem tsmt_engine_candidate_exact_and_deterministic
    (circles : List CircleQ) (w h : ℚ) :
    (∀ (st : EngineState) (px py : ℚ),
      0 < TSMT_getQuadrant px py 0 0 w h →
      TSMT_getQuadrant px py 0 0 w h < 5 →
      ((TSMT_getQuadrant px py 0 0 w h : ℤ) ≠ st.prevQuad) →
      (engineStep circles w h st px py).1.check =
        quadKeys circles w h (TSMT_getQuadrant px py 0 0 w h)) ∧
    (∀ (st : EngineState) (q : ℕ) (ps : List (ℚ × ℚ)),
      0 < q → q < 5 →
      (∀ p ∈ ps, TSMT_getQuadrant p.1 p.2 0 0 w h = q) →
      ∀ i j : ℕ, ps.get? i = ps.get? j →
        (engineRun circles w h st ps).2.get? i =
          (engineRun circles w h st ps).2.get? j) := by
  constructor
  · intro st px py hq1 hq2 hne
    rw [engineStep_in_quad circles w h st px py _ rfl hq1 hq2]
    simp only [if_pos hne]
  · intro st q ps hq1 hq2 hps i j hij
    rw [engineRun_results_map circles w h q hq1 hq2 st ps hps]
    rw [List.get?_map, List.get?_map, hij]

/-- Witness for C4: the spec's concrete scenario — a 100 by 100 world with
one circle `(75, 25, 10)`. From the initial cursor, the point `(75, 25)`
(quadrant 1) replaces the cache with quadrant 1's bucket, and two steps at
the same position return the same result. -/
theorem tsmt_engine_candidate_exact_and_deterministic_witness :
    (engineStep [⟨75, 25, 10⟩] 100 100 ⟨-1, []⟩ 75 25).1.check =
      quadKeys [⟨75, 25, 10⟩] 100 100 1 ∧
    (engineRun [⟨75, 25, 10⟩] 100 100 ⟨-1, []⟩ [(75, 25), (75, 25)]).2.get? 0 =
      (engineRun [⟨75, 25, 10⟩] 100 100 ⟨-1, []⟩ [(75, 25), (75, 25)]).2.get? 1 := by
  have hq : TSMT_getQuadrant 75 25 0 0 100 100 = 1 := by
    norm_num [TSMT_getQuadrant]
  constructor
  · have h := (tsmt_engine_candidate_exact_and_deterministic
      [⟨75, 25, 10⟩] 100 100).1 ⟨-1, []⟩ 75 25
      (by rw [hq]; norm_num) (by rw [hq]; norm_num) (by rw [hq]; norm_num)
    rw [hq] at h
    exact h
  · refine (tsmt_engine_candidate_exact_and_deterministic
      [⟨75, 25, 10⟩] 100 100).2 ⟨-1, []⟩ 1 [(75, 25), (75, 25)]
      (by norm_num) (by norm_num) ?_ 0 1 rfl
    intro p hp
    rcases List.mem_pair.mp hp with h | h <;> (subst h; exact hq)

lemma quadrantRect_one (l t r b : ℚ) :
    quadrantRect 1 l t r b =
      ((l + r) / 2, r, min t ((b + t) / 2), max t ((b + t) / 2)) := rfl

lemma quadrantRect_two (l t r b : ℚ) :
    quadrantRect 2 l t r b =
      ((l + r) / 2, r, min ((b + t) / 2) b, max ((b + t) / 2) b) := rfl

lemma quadrantRect_three (l t r b : ℚ) :
    quadrantRect 3 l t r b =
      (l, (l + r) / 2, min ((b + t) / 2) b, max ((b + t) / 2) b) := rfl

lemma quadrantRect_four (l t r b : ℚ) :
    quadrantRect 4 l t r b =
      (l, (l + r) / 2, min t ((b + t) / 2), max t ((b + t) / 2)) := rfl

/-- A point classified into quadrant `q` (1..4) lies in quadrant `q`'s closed
sub-rectangle. -/
lemma getQuadrant_in_quadrantRect (px py l t r b : ℚ) (q : ℕ)
    (hq1 : 0 < q) (hq2 : q < 5) (hq : TSMT_getQuadrant px py l t r b = q) :
    (quadrantRect q l t r b).1 ≤ px ∧ px ≤ (quadrantRect q l t r b).2.1 ∧
      (quadrantRect q l t r b).2.2.1 ≤ py ∧
      py ≤ (quadrantRect q l t r b).2.2.2 := by
  rw [getQuadrant_eq_ite] at hq
  split_ifs at hq with h1 h2 h3 h4
  · obtain ⟨⟨hx1, hx2⟩, hy⟩ := h1
    subst hq
    rw [quadrantRect_one]
    unfold codeYHigh at hy
    split_ifs at hy with ht
    · exact ⟨hx1, hx2, by rw [min_eq_left (by linarith)]; exact hy.2,
        by rw [max_eq_right (by linarith)]; exact hy.1⟩
    · push_neg at ht
      exact ⟨hx1, hx2, by rw [min_eq_right (by linarith)]; exact hy.1,
        by rw [max_eq_left (by linarith)]; exact hy.2⟩
  · obtain ⟨⟨hx1, hx2⟩, hy⟩ := h2
    subst hq
    rw [quadrantRect_two]
    unfold codeYLow at hy
    split_ifs at hy with ht
    · exact ⟨hx1, hx2, by rw [min_eq_left (by linarith)]; exact hy.1,
        by rw [max_eq_right (by linarith)]; exact hy.2⟩
    · push_neg at ht
      exact ⟨hx1, hx2, by rw [min_eq_right (by linarith)]; exact hy.2,
        by rw [max_eq_left (by linarith)]; exact hy.1⟩
  · obtain ⟨⟨hx1, hx2⟩, hy⟩ := h3
    subst hq
    rw [quadrantRect_three]
    unfold codeYLow at hy
    split_ifs at hy with ht
    · exact ⟨hx2, hx1, by rw [min_eq_left (by linarith)]; exact hy.1,
        by rw [max_eq_right (by linarith)]; exact hy.2⟩
    · push_neg at ht
      exact ⟨hx2, hx1, by rw [min_eq_right (by linarith)]; exact hy.2,
        by rw [max_eq_left (by linarith)]; exact hy.1⟩
  · obtain ⟨⟨hx1, hx2⟩, hy⟩ := h4
    subst hq
    rw [quadrantRect_four]
    unfold codeYHigh at hy
    split_ifs at hy with ht
    · exact ⟨hx2, hx1, by rw [min_eq_left (by linarith)]; exact hy.2,
        by rw [max_eq_right (by linarith)]; exact hy.1⟩
    · push_neg at ht
      exact ⟨hx2, hx1, by rw [min_eq_right (by linarith)]; exact hy.1,
        by rw [max_eq_left (by linarith)]; exact hy.2⟩
  · subst hq
    exact absurd hq1 (lt_irrefl 0)

/-- If the circle's bounding box and quadrant `q`'s rectangle share a point,
the overlap test `inQuadrant` accepts the circle. -/
lemma inQuadrant_of_shared_point (c : CircleQ) (q : ℕ) (l t r b zx zy : ℚ)
    (hbx1 : c.x - c.radius ≤ zx) (hbx2 : zx ≤ c.x + c.radius)
    (hby1 : c.y - c.radius ≤ zy) (hby2 : zy ≤ c.y + c.radius)
    (hr : (quadrantRect q l t r b).1 ≤ zx ∧ zx ≤ (quadrantRect q l t r b).2.1 ∧
      (quadrantRect q l t r b).2.2.1 ≤ zy ∧
      zy ≤ (quadrantRect q l t r b).2.2.2) :
    inQuadrant c q l t r b = true := by
  unfold inQuadrant
  simp only [decide_eq_true_eq]
  obtain ⟨h1, h2, h3, h4⟩ := hr
  exact ⟨by linarith, by linarith, by linarith, by linarith⟩

/-- Circle `i` is listed in quadrant `q`'s bucket as soon as its overlap test
accepts. -/
lemma mem_quadKeys (circles : List CircleQ) (w h : ℚ) (q i : ℕ) (c : CircleQ)
    (hc : circles.get? i = some c) (hin : inQuadrant c q 0 0 w h = true) :
    i ∈ quadKeys circles w h q := by
  unfold quadKeys
  rw [List.mem_filter, List.mem_range]
  have hlt : i < circles.length := by
    by_contra hlen
    rw [List.get?_eq_none.mpr (le_of_not_lt hlen)] at hc
    exact Option.noConfusion hc
  refine ⟨hlt, ?_⟩
  simp only [hc]
  exact hin

/-- C2: the initialized quadrant index never produces a false negative. If a
point lies inside circle `i` (per `TSMT$PointInCircle`) and classifies to
quadrant `q` in 1..4, then `i` is a member of quadrant `q`'s bucket; more
generally, any circle whose disk meets quadrant `q`'s rectangle is in the
bucket. -/
theorem tsmt_quadmap_no_false_negative (circles : List CircleQ) (w h : ℚ)
    (i : ℕ) (c : CircleQ) (hc : circles.get? i = some c) (q : ℕ)
    (hq1 : 0 < q) (hq2 : q < 5) :
    (∀ px py : ℚ, TSMT_PointInCircle px py c.x c.y c.radius = true →
      TSMT_getQuadrant px py 0 0 w h = q →
      i ∈ quadKeys circles w h q) ∧
    (0 ≤ c.radius → ∀ zx zy : ℚ,
      (zx - c.x) ^ 2 + (zy - c.y) ^ 2 ≤ c.radius ^ 2 →
      ((quadrantRect q 0 0 w h).1 ≤ zx ∧ zx ≤ (quadrantRect q 0 0 w h).2.1 ∧
        (quadrantRect q 0 0 w h).2.2.1 ≤ zy ∧
        zy ≤ (quadrantRect q 0 0 w h).2.2.2) →
      i ∈ quadKeys circles w h q) := by
  constructor
  · intro px py hpc hquad
    obtain ⟨hb1, hb2, hb3, hb4⟩ := pointInCircle_true_bounds hpc
    exact mem_quadKeys circles w h q i c hc
      (inQuadrant_of_shared_point c q 0 0 w h px py (by linarith) (by linarith)
        (by linarith) (by linarith)
        (getQuadrant_in_quadrantRect px py 0 0 w h q hq1 hq2 hquad))
  · intro hr zx zy hdist hrect
    have hx1 : c.x - c.radius ≤ zx := by
      nlinarith [sq_nonneg (zy - c.y), sq_nonneg (zx - c.x + c.radius)]
    have hx2 : zx ≤ c.x + c.radius := by
      nlinarith [sq_nonneg (zy - c.y), sq_nonneg (zx - c.x - c.radius)]
    have hy1 : c.y - c.radius ≤ zy := by
      nlinarith [sq_nonneg (zx - c.x), sq_nonneg (zy - c.y + c.radius)]
    have hy2 : zy ≤ c.y + c.radius := by
      nlinarith [sq_nonneg (zx - c.x), sq_nonneg (zy - c.y - c.radius)]
    exact mem_quadKeys circles w h q i c hc
      (inQuadrant_of_shared_point c q 0 0 w h zx zy hx1 hx2 hy1 hy2 hrect)

/-- Witness for C2: in the 100 by 100 world, the point `(75, 25)` lies inside
circle 0 `(75, 25, 10)` and classifies to quadrant 1, so circle 0 is in
quadrant 1's bucket. -/
theorem tsmt_quadmap_no_false_negative_witness :
    0 ∈ quadKeys [⟨75, 25, 10⟩] 100 100 1 :=
  (tsmt_quadmap_no_false_negative [⟨75, 25, 10⟩] 100 100 0 ⟨75, 25, 10⟩ rfl 1
    (by norm_num) (by norm_num)).1 75 25
    (by norm_num [TSMT_PointInCircle])
    (by norm_num [TSMT_getQuadrant])

/-- Division as JavaScript evaluates it on the finite inputs of
`TSMT$CircleSegmentIntersection`: `0/0` is `NaN`, modelled as `none`. In that
function the numerator provably vanishes whenever the denominator does
(`normSq = 0` forces `dx = dy = 0` over the reals), so the infinite cases of
IEEE division never arise there. -/
noncomputable def nanDiv (a b : ℝ) : Option ℝ :=
  if b = 0 then none else some (a / b)

open Classical in
/-- Embedding of `TSMT$CircleSegmentIntersection` (circle-util-functions.ts,
lines 391-443). The projection parameter `t` is `NaN` (`none`) exactly when
the segment is degenerate; every comparison against `NaN` is false in
JavaScript, so control falls through the tangent and the two-point branches
to the empty branch, which the `none` arm mirrors. -/
noncomputable def TSMT_CircleSegmentIntersection
    (x1 y1 x2 y2 xc yc r : ℝ) : List (ℝ × ℝ) :=
  let dx := x2 - x1
  let dy := y2 - y1
  let normSq := dx * dx + dy * dy
  match nanDiv ((xc - x1) * (x2 - x1) + (yc - y1) * (y2 - y1)) normSq with
  | none => []
  | some t =>
    let ex := (1 - t) * x1 + t * x2
    let ey := (1 - t) * y1 + t * y2
    let tx := ex - xc
    let ty := ey - yc
    let d := Real.sqrt (tx * tx + ty * ty)
    if |d - r| < 1 / 10000 then [(ex, ey)]
    else if d < r then
      let norm := Real.sqrt normSq
      let dt := Real.sqrt |r * r - d * d| / norm
      let t1 := t - dt
      let t2 := t + dt
      [(t1 * dx + x1, t1 * dy + y1), (t2 * dx + x1, t2 * dy + y1)]
    else []

/-- C10: for every circle and every degenerate segment whose endpoints
coincide, `TSMT$CircleSegmentIntersection` returns the empty array and does
not fail — even when the endpoint lies inside or on the circle — because the
projection parameter divides by the zero squared length, and the resulting
undefined value fails every intersection test. -/
theorem tsmt_circleSegment_degenerate_empty (x1 y1 xc yc r : ℝ) :
    TSMT_CircleSegmentIntersection x1 y1 x1 y1 xc yc r = [] := by
  unfold TSMT_CircleSegmentIntersection nanDiv
  simp

/-- Result record of `TSMT$TriangleIncircle`: incircle radius, incircle
center, triangle area and perimeter. -/
structure IncircleResult where
  r : ℝ
  x : ℝ
  y : ℝ
  area : ℝ
  p : ℝ

open Classical in
/-- Embedding of `TSMT$TriangleIncircle` (circle-util-functions.ts, lines
210-251): opposite side lengths by Euclidean distance, degenerate branch for
perimeter below `1e-8`, else incenter from the side-weighted vertex average,
Heron area and radius `2*area/perimeter`. -/
noncomputable def TSMT_TriangleIncircle (aX aY bX bY cX cY : ℝ) :
    IncircleResult :=
  let a := Real.sqrt ((cX - bX) * (cX - bX) + (cY - bY) * (cY - bY))
  let b := Real.sqrt ((cX - aX) * (cX - aX) + (cY - aY) * (cY - aY))
  let c := Real.sqrt ((bX - aX) * (bX - aX) + (bY - aY) * (bY - aY))
  let s := a + b + c
  if s < 1 / 100000000 then ⟨0, aX, aY, 0, 0⟩
  else
    let p := 1 / s
    let incenterX := (a * aX + b * bX + c * cX) * p
    let incenterY := (a * aY + b * bY + c * cY) * p
    let semi := (1 / 2) * s
    let area := Real.sqrt (semi * (semi - a) * (semi - b) * (semi - c))
    ⟨2 * area * p, incenterX, incenterY, area, s⟩

/-- Counterexample to C9 as stated: for the fully degenerate triangle with
all three vertices at `(5, 7)` the perimeter is `0 < 1e-8`, and the returned
center coordinate is vertex A's `x`-coordinate 5, not 0 — the degenerate
result is not all-zero. -/
theorem tsmt_triangleIncircle_degenerate_center_at_vertex_a :
    (TSMT_TriangleIncircle 5 7 5 7 5 7).x = 5 ∧ (5 : ℝ) ≠ 0 := by
  constructor
  · unfold TSMT_TriangleIncircle
    norm_num
  · norm_num

/-- C9 (amended): for a perimeter below `1e-8` the function returns the
degenerate result with radius 0, area 0, perimeter 0 and center at vertex A
(not at the origin); otherwise it returns the incenter as the
side-length-weighted average of the vertices, the area by Heron's formula,
and radius `2*area/perimeter`. -/
theorem tsmt_triangleIncircle_amended (aX aY bX bY cX cY : ℝ) :
    (Real.sqrt ((cX - bX) * (cX - bX) + (cY - bY) * (cY - bY)) +
      Real.sqrt ((cX - aX) * (cX - aX) + (cY - aY) * (cY - aY)) +
      Real.sqrt ((bX - aX) * (bX - aX) + (bY - aY) * (bY - aY)) <
        1 / 100000000 →
      TSMT_TriangleIncircle aX aY bX bY cX cY = ⟨0, aX, aY, 0, 0⟩) ∧
    (∀ a b c s : ℝ,
      a = Real.sqrt ((cX - bX) * (cX - bX) + (cY - bY) * (cY - bY)) →
      b = Real.sqrt ((cX - aX) * (cX - aX) + (cY - aY) * (cY - aY)) →
      c = Real.sqrt ((bX - aX) * (bX - aX) + (bY - aY) * (bY - aY)) →
      s = a + b + c →
      ¬ s < 1 / 100000000 →
      TSMT_TriangleIncircle aX aY bX bY cX cY =
        ⟨2 * Real.sqrt (s / 2 * (s / 2 - a) * (s / 2 - b) * (s / 2 - c)) / s,
          (a * aX + b * bX + c * cX) / s,
          (a * aY + b * bY + c * cY) / s,
          Real.sqrt (s / 2 * (s / 2 - a) * (s / 2 - b) * (s / 2 - c)), s⟩) := by
  constructor
  · intro hs
    simp only [TSMT_TriangleIncircle]
    rw [if_pos hs]
  · intro a b c s ha hb hc hs hns
    simp only [TSMT_TriangleIncircle]
    rw [← ha, ← hb, ← hc, ← hs, if_neg hns]
    have h2 : (1 / 2 : ℝ) * s = s / 2 := by ring
    rw [h2]
    congr 1 <;> ring

/-- Witness for C9 (amended): the 3-4-5 right triangle with vertices
`(0,0)`, `(3,0)`, `(0,4)` has incircle radius 1 centered at `(1,1)`, area 6
and perimeter 12. -/
theorem tsmt_triangleIncircle_amended_witness :
    TSMT_TriangleIncircle 0 0 3 0 0 4 = ⟨1, 1, 1, 6, 12⟩ := by
  have ha : Real.sqrt (((0 : ℝ) - 3) * ((0 : ℝ) - 3) + (4 - 0) * (4 - 0)) = 5 := by
    rw [show ((0 : ℝ) - 3) * ((0 : ℝ) - 3) + (4 - 0) * (4 - 0) = 5 ^ 2 by norm_num]
    exact Real.sqrt_sq (by norm_num)
  have hb : Real.sqrt (((0 : ℝ) - 0) * ((0 : ℝ) - 0) + (4 - 0) * (4 - 0)) = 4 := by
    rw [show ((0 : ℝ) - 0) * ((0 : ℝ) - 0) + (4 - 0) * (4 - 0) = 4 ^ 2 by norm_num]
    exact Real.sqrt_sq (by norm_num)
  have hc : Real.sqrt (((3 : ℝ) - 0) * ((3 : ℝ) - 0) + (0 - 0) * (0 - 0)) = 3 := by
    rw [show ((3 : ℝ) - 0) * ((3 : ℝ) - 0) + (0 - 0) * (0 - 0) = 3 ^ 2 by norm_num]
    exact Real.sqrt_sq (by norm_num)
  have h := (tsmt_triangleIncircle_amended 0 0 3 0 0 4).2 5 4 3 12
    ha.symm hb.symm hc.symm (by norm_num) (by norm_num)
  rw [h]
  have harea : Real.sqrt ((12 : ℝ) / 2 * (12 / 2 - 5) * (12 / 2 - 4) * (12 / 2 - 3)) = 6 := by
    rw [show (12 : ℝ) / 2 * (12 / 2 - 5) * (12 / 2 - 4) * (12 / 2 - 3) = 6 ^ 2 by norm_num]
    exact Real.sqrt_sq (by norm_num)
  rw [harea]
  norm_num

open Classical in
/-- Sanitized side value of `TSMT$TriangleCircumcircle`; in the source all
three sanitized values `_a`, `_b`, `_c` are computed from the first argument
`a` (lines 180-182), so the guard depends on `a` alone. -/
noncomputable def circumSanitized (a : ℝ) : ℝ := if a < 0 then 0 else a

/-- The zero guard `_a == 0 && _b == 0 && _c == 0` of
`TSMT$TriangleCircumcircle` exactly as the source computes it: all three
conjuncts test the value sanitized from `a`. -/
def circumGuard (a : ℝ) : Prop :=
  circumSanitized a = 0 ∧ circumSanitized a = 0 ∧ circumSanitized a = 0

open Classical in
/-- Embedding of `TSMT$TriangleCircumcircle` (circle-util-functions.ts,
lines 178-189): when the (mis-copied) zero guard fires the function returns
0; otherwise the raw arguments feed the circumradius formula. -/
noncomputable def TSMT_TriangleCircumcircle (a b c : ℝ) : ℝ :=
  if circumGuard a then 0
  else a * b * c /
    Real.sqrt ((a + b + c) * (b + c - a) * (c + a - b) * (a + b - c))

/-- C8 evaluated at the failing input `(0, 1, 1)`: the zero guard fires
(because every conjunct tests the value sanitized from `a`), although the
three sides are not all zero, and the function returns 0 through the
all-zero branch. -/
theorem tsmt_triangleCircumcircle_guard_fires_when_only_a_zero :
    circumGuard 0 ∧ ¬ ((0 : ℝ) = 0 ∧ (1 : ℝ) = 0 ∧ (1 : ℝ) = 0) ∧
      TSMT_TriangleCircumcircle 0 1 1 = 0 := by
  refine ⟨⟨by norm_num [circumSanitized], by norm_num [circumSanitized],
    by norm_num [circumSanitized]⟩, by norm_num, ?_⟩
  unfold TSMT_TriangleCircumcircle
  rw [if_pos ⟨by norm_num [circumSanitized], by norm_num [circumSanitized],
    by norm_num [circumSanitized]⟩]

/-- Distance between the two circle centers as the source computes it
(`d = Math.sqrt(dx*dx + dy*dy)`). -/
noncomputable def centerDist (x0 y0 x1 y1 : ℝ) : ℝ :=
  Real.sqrt ((x1 - x0) * (x1 - x0) + (y1 - y0) * (y1 - y0))

open Classical in
/-- Embedding of `TSMT$CircleToCircleIntersection` (circle-util-functions.ts,
lines 272-315): reject separated or contained circles, reject near-coincident
circles within tolerance `1e-3`, else solve by the radical-line construction;
the second point is pushed only when `d != r0 + r1`. -/
noncomputable def TSMT_CircleToCircleIntersection
    (x0 y0 r0 x1 y1 r1 : ℝ) : List (ℝ × ℝ) :=
  let dx := x1 - x0
  let dy := y1 - y0
  let d := centerDist x0 y0 x1 y1
  if d > r0 + r1 ∨ d < |r0 - r1| then []
  else if |d| < 1 / 1000 ∧ |r1 - r0| < 1 / 1000 then []
  else
    let r0sq := r0 * r0
    let a := (r0sq - r1 * r1 + d * d) / (2 * d)
    let hh := Real.sqrt (r0sq - a * a)
    let ux := dx / d
    let uy := dy / d
    let x2 := x0 + a * ux
    let y2 := y0 + a * uy
    let x3 := x2 + hh * uy
    let y3 := y2 - hh * ux
    if d ≠ r0 + r1 then [(x3, y3), (x2 - hh * uy, y2 + hh * ux)]
    else [(x3, y3)]

/-- Counterexample to C6 as stated: the circles `(0, 0, 1/2500)` and
`(1/1250, 0, 1/2500)` are externally tangent (`d = r0 + r1` with distinct
centers), yet the function returns the empty array, because the `1e-3`
near-coincidence tolerance guard fires first. -/
theorem tsmt_circleCircle_tangent_swallowed_by_tolerance :
    TSMT_CircleToCircleIntersection 0 0 (1 / 2500) (1 / 1250) 0 (1 / 2500)
      = [] ∧
    centerDist 0 0 (1 / 1250) 0 = 1 / 2500 + 1 / 2500 := by
  have hd : centerDist 0 0 (1 / 1250) 0 = 1 / 1250 := by
    unfold centerDist
    rw [show ((1 : ℝ) / 1250 - 0) * (1 / 1250 - 0) + (0 - 0) * (0 - 0)
        = (1 / 1250) ^ 2 by norm_num]
    exact Real.sqrt_sq (by norm_num)
  constructor
  · simp only [TSMT_CircleToCircleIntersection, hd]
    rw [if_neg (by rw [sub_self, abs_zero]; norm_num),
      if_pos (by rw [sub_self, abs_zero,
        abs_of_nonneg (show (0 : ℝ) ≤ 1 / 1250 by norm_num)]; norm_num)]
  · rw [hd]; norm_num

/-- In the radical-line branch (no guard fired, `d != r0 + r1`), the function
returns the two constructed points. -/
lemma circleCircle_two_point_form (x0 y0 r0 x1 y1 r1 d a hh ux uy : ℝ)
    (hd : d = centerDist x0 y0 x1 y1)
    (ha : a = (r0 * r0 - r1 * r1 + d * d) / (2 * d))
    (hhh : hh = Real.sqrt (r0 * r0 - a * a))
    (hux : ux = (x1 - x0) / d) (huy : uy = (y1 - y0) / d)
    (hg1 : ¬ (d > r0 + r1 ∨ d < |r0 - r1|))
    (hg2 : ¬ (|d| < 1 / 1000 ∧ |r1 - r0| < 1 / 1000))
    (hg3 : d ≠ r0 + r1) :
    TSMT_CircleToCircleIntersection x0 y0 r0 x1 y1 r1 =
      [(x0 + a * ux + hh * uy, y0 + a * uy - hh * ux),
        (x0 + a * ux - hh * uy, y0 + a * uy + hh * ux)] := by
  subst hd ha hhh hux huy
  simp only [TSMT_CircleToCircleIntersection]
  rw [if_neg hg1, if_neg hg2, if_pos hg3]

/-- In the radical-line branch with `d == r0 + r1`, the function returns the
single constructed point. -/
lemma circleCircle_tangent_form (x0 y0 r0 x1 y1 r1 d a hh ux uy : ℝ)
    (hd : d = centerDist x0 y0 x1 y1)
    (ha : a = (r0 * r0 - r1 * r1 + d * d) / (2 * d))
    (hhh : hh = Real.sqrt (r0 * r0 - a * a))
    (hux : ux = (x1 - x0) / d) (huy : uy = (y1 - y0) / d)
    (hg1 : ¬ (d > r0 + r1 ∨ d < |r0 - r1|))
    (hg2 : ¬ (|d| < 1 / 1000 ∧ |r1 - r0| < 1 / 1000))
    (hg3 : d = r0 + r1) :
    TSMT_CircleToCircleIntersection x0 y0 r0 x1 y1 r1 =
      [(x0 + a * ux + hh * uy, y0 + a * uy - hh * ux)] := by
  subst hd ha hhh hux huy
  simp only [TSMT_CircleToCircleIntersection]
  rw [if_neg hg1, if_neg hg2, if_neg (by simpa using hg3)]

/-- Distance between the centers of the spec's concrete scenario circles. -/
lemma centerDist_concrete_eight : centerDist 0 0 8 0 = 8 := by
  unfold centerDist
  rw [show ((8 : ℝ) - 0) * (8 - 0) + (0 - 0) * (0 - 0) = 8 ^ 2 by norm_num]
  exact Real.sqrt_sq (by norm_num)

/-- C6 (amended): `TSMT$CircleToCircleIntersection` returns the empty array
for circles coincident within the `1e-3` tolerance; outside that tolerance it
returns exactly one point at external tangency (`d = r0 + r1`, nonnegative
radii) and exactly two points when `|r0 - r1| < d < r0 + r1`, each returned
point at distance `r0` from the first center and `r1` from the second; for
the circles `(0,0,5)` and `(8,0,5)` it returns exactly `(4,-3)` and `(4,3)`.
The tolerance proviso is forced: a genuine tangency with both `d` and
`|r1 - r0|` below `1e-3` is swallowed by the coincidence guard. -/
theorem tsmt_circleCircleIntersection_cases (x0 y0 r0 x1 y1 r1 : ℝ) :
    (centerDist x0 y0 x1 y1 < 1 / 1000 → |r1 - r0| < 1 / 1000 →
      TSMT_CircleToCircleIntersection x0 y0 r0 x1 y1 r1 = []) ∧
    (0 ≤ r0 → 0 ≤ r1 → centerDist x0 y0 x1 y1 = r0 + r1 →
      ¬ (centerDist x0 y0 x1 y1 < 1 / 1000 ∧ |r1 - r0| < 1 / 1000) →
      (TSMT_CircleToCircleIntersection x0 y0 r0 x1 y1 r1).length = 1) ∧
    (|r0 - r1| < centerDist x0 y0 x1 y1 → centerDist x0 y0 x1 y1 < r0 + r1 →
      ¬ (centerDist x0 y0 x1 y1 < 1 / 1000 ∧ |r1 - r0| < 1 / 1000) →
      (TSMT_CircleToCircleIntersection x0 y0 r0 x1 y1 r1).length = 2 ∧
      ∀ p ∈ TSMT_CircleToCircleIntersection x0 y0 r0 x1 y1 r1,
        Real.sqrt ((p.1 - x0) ^ 2 + (p.2 - y0) ^ 2) = r0 ∧
        Real.sqrt ((p.1 - x1) ^ 2 + (p.2 - y1) ^ 2) = r1) ∧
    TSMT_CircleToCircleIntersection 0 0 5 8 0 5 = [(4, -3), (4, 3)] := by
  have habs : |centerDist x0 y0 x1 y1| = centerDist x0 y0 x1 y1 :=
    abs_of_nonneg (Real.sqrt_nonneg _)
  refine ⟨?_, ?_, ?_, ?_⟩
  · intro hdt hrt
    simp only [TSMT_CircleToCircleIntersection]
    by_cases hg1 : centerDist x0 y0 x1 y1 > r0 + r1 ∨
        centerDist x0 y0 x1 y1 < |r0 - r1|
    · rw [if_pos hg1]
    · rw [if_neg hg1, if_pos ⟨by rwa [habs], hrt⟩]
  · intro hr0 hr1 hd htol
    have hg1 : ¬ (centerDist x0 y0 x1 y1 > r0 + r1 ∨
        centerDist x0 y0 x1 y1 < |r0 - r1|) := by
      push_neg
      constructor
      · rw [hd]
      · rw [hd]
        rcases abs_sub_le_iff.mpr
          (⟨by linarith, by linarith⟩ : r0 - r1 ≤ r0 + r1 ∧ r1 - r0 ≤ r0 + r1)
          with h
        exact h
    have hg2 : ¬ (|centerDist x0 y0 x1 y1| < 1 / 1000 ∧
        |r1 - r0| < 1 / 1000) := by rwa [habs]
    rw [circleCircle_tangent_form x0 y0 r0 x1 y1 r1 _ _ _ _ _ rfl rfl rfl rfl
      rfl hg1 hg2 hd]
    rfl
  · intro h1 h2 htol
    obtain ⟨d, hdd⟩ : ∃ d, d = centerDist x0 y0 x1 y1 := ⟨_, rfl⟩
    rw [← hdd] at h1 h2 htol habs
    have hd0 : 0 < d := lt_of_le_of_lt (abs_nonneg _) h1
    have e1 : r0 - r1 ≤ |r0 - r1| := le_abs_self _
    have e2 : r1 - r0 ≤ |r0 - r1| := by rw [abs_sub_comm]; exact le_abs_self _
    have hr0 : 0 < r0 := by linarith
    have hr1 : 0 < r1 := by linarith
    have hdsq : d * d = (x1 - x0) * (x1 - x0) + (y1 - y0) * (y1 - y0) := by
      rw [hdd]
      exact Real.mul_self_sqrt (add_nonneg (mul_self_nonneg _) (mul_self_nonneg _))
    obtain ⟨A, hA⟩ : ∃ A, A = (r0 * r0 - r1 * r1 + d * d) / (2 * d) := ⟨_, rfl⟩
    obtain ⟨H, hH⟩ : ∃ H, H = Real.sqrt (r0 * r0 - A * A) := ⟨_, rfl⟩
    obtain ⟨ux, hux⟩ : ∃ u, u = (x1 - x0) / d := ⟨_, rfl⟩
    obtain ⟨uy, huy⟩ : ∃ u, u = (y1 - y0) / d := ⟨_, rfl⟩
    have h2d0 : (2 * d) ≠ 0 := by positivity
    have hA2d : A * (2 * d) = r0 * r0 - r1 * r1 + d * d := by
      rw [hA]; field_simp
    have huu : ux * ux + uy * uy = 1 := by
      rw [hux, huy]
      field_simp
      linarith [hdsq]
    have key : (2 * d) * (2 * d) * (r0 * r0 - A * A) =
        (r1 - (d - r0)) * (r1 + (d - r0)) * (((d + r0) - r1) * ((d + r0) + r1)) := by
      have expand : (2 * d) * (2 * d) * (r0 * r0 - A * A) =
          (2 * d * r0) ^ 2 - (A * (2 * d)) ^ 2 := by ring
      rw [expand, hA2d]
      ring
    have hprod : 0 < (r1 - (d - r0)) * (r1 + (d - r0)) *
        (((d + r0) - r1) * ((d + r0) + r1)) :=
      mul_pos (mul_pos (by linarith) (by linarith))
        (mul_pos (by linarith) (by linarith))
    have hpos : 0 < r0 * r0 - A * A := by
      nlinarith [key, hprod, mul_pos hd0 hd0]
    have hHH : H * H = r0 * r0 - A * A := by
      rw [hH]; exact Real.mul_self_sqrt hpos.le
    have hg1 : ¬ (d > r0 + r1 ∨ d < |r0 - r1|) := by
      push_neg
      exact ⟨h2.le, h1.le⟩
    have hg2 : ¬ (|d| < 1 / 1000 ∧ |r1 - r0| < 1 / 1000) := by
      rw [habs]
      exact htol
    have hres := circleCircle_two_point_form x0 y0 r0 x1 y1 r1 d A H ux uy
      hdd hA hH hux huy hg1 hg2 (ne_of_lt h2)
    rw [hres]
    have hd1 : d * ux = x1 - x0 := by rw [hux]; field_simp
    have hd2 : d * uy = y1 - y0 := by rw [huy]; field_simp
    refine ⟨rfl, ?_⟩
    intro p hp
    have dist0 : ∀ e : ℝ, e = 1 ∨ e = -1 →
        Real.sqrt ((A * ux + e * (H * uy)) ^ 2 + (A * uy - e * (H * ux)) ^ 2)
          = r0 := by
      intro e he
      have hsum : (A * ux + e * (H * uy)) ^ 2 + (A * uy - e * (H * ux)) ^ 2 =
          (A * A + (e * e) * (H * H)) * (ux * ux + uy * uy) := by ring
      have he1 : e * e = 1 := by rcases he with rfl | rfl <;> norm_num
      rw [hsum, he1, huu, hHH]
      rw [show (A * A + 1 * (r0 * r0 - A * A)) * 1 = r0 * r0 by ring]
      exact Real.sqrt_mul_self hr0.le
    have dist1 : ∀ e : ℝ, e = 1 ∨ e = -1 →
        Real.sqrt (((A - d) * ux + e * (H * uy)) ^ 2 +
          ((A - d) * uy - e * (H * ux)) ^ 2) = r1 := by
      intro e he
      have hsum : ((A - d) * ux + e * (H * uy)) ^ 2 +
          ((A - d) * uy - e * (H * ux)) ^ 2 =
          ((A - d) * (A - d) + (e * e) * (H * H)) * (ux * ux + uy * uy) := by
        ring
      have he1 : e * e = 1 := by rcases he with rfl | rfl <;> norm_num
      rw [hsum, he1, huu, hHH]
      have hval : ((A - d) * (A - d) + 1 * (r0 * r0 - A * A)) * 1 = r1 * r1 := by
        linear_combination -1 * hA2d
      rw [hval]
      exact Real.sqrt_mul_self hr1.le
    simp only [List.mem_cons, List.not_mem_nil, or_false] at hp
    rcases hp with rfl | rfl
    · constructor
      · rw [show (x0 + A * ux + H * uy, y0 + A * uy - H * ux).1 - x0
            = A * ux + 1 * (H * uy) by ring,
          show (x0 + A * ux + H * uy, y0 + A * uy - H * ux).2 - y0
            = A * uy - 1 * (H * ux) by ring]
        exact dist0 1 (Or.inl rfl)
      · rw [show (x0 + A * ux + H * uy, y0 + A * uy - H * ux).1 - x1
            = (A - d) * ux + 1 * (H * uy) by linear_combination hd1,
          show (x0 + A * ux + H * uy, y0 + A * uy - H * ux).2 - y1
            = (A - d) * uy - 1 * (H * ux) by linear_combination hd2]
        exact dist1 1 (Or.inl rfl)
    · constructor
      · rw [show (x0 + A * ux - H * uy, y0 + A * uy + H * ux).1 - x0
            = A * ux + (-1) * (H * uy) by ring,
          show (x0 + A * ux - H * uy, y0 + A * uy + H * ux).2 - y0
            = A * uy - (-1) * (H * ux) by ring]
        exact dist0 (-1) (Or.inr rfl)
      · rw [show (x0 + A * ux - H * uy, y0 + A * uy + H * ux).1 - x1
            = (A - d) * ux + (-1) * (H * uy) by linear_combination hd1,
          show (x0 + A * ux - H * uy, y0 + A * uy + H * ux).2 - y1
            = (A - d) * uy - (-1) * (H * ux) by linear_combination hd2]
        exact dist1 (-1) (Or.inr rfl)
  · rw [circleCircle_two_point_form 0 0 5 8 0 5 8 4 3 1 0
      centerDist_concrete_eight.symm (by norm_num)
      (by rw [show (5 * 5 - 4 * 4 : ℝ) = 3 ^ 2 by norm_num]
          exact (Real.sqrt_sq (by norm_num)).symm)
      (by norm_num) (by norm_num)
      (by rw [sub_self, abs_zero]; norm_num)
      (by intro hcon
          rw [abs_of_nonneg (by norm_num : (0 : ℝ) ≤ 8)] at hcon
          exact absurd hcon.1 (by norm_num))
      (by norm_num)]
    norm_num

/-- Witness for C6 (amended): the two-point case applies to the circles
`(0,0,5)` and `(8,0,5)` — distance 8 strictly between `|r0 - r1| = 0` and
`r0 + r1 = 10`, outside the coincidence tolerance — and yields exactly two
intersection points. -/
theorem tsmt_circleCircleIntersection_cases_witness :
    (TSMT_CircleToCircleIntersection 0 0 5 8 0 5).length = 2 :=
  ((tsmt_circleCircleIntersection_cases 0 0 5 8 0 5).2.2.1
    (by rw [centerDist_concrete_eight, sub_self, abs_zero]; norm_num)
    (by rw [centerDist_concrete_eight]; norm_num)
    (by rw [centerDist_concrete_eight]
        intro hcon
        exact absurd hcon.1 (by norm_num))).1

/-- Result record of `TSMT$CircleChordParams`: chord length, central angle
and segment area. -/
structure ChordResult where
  l : ℝ
  theta : ℝ
  area : ℝ

open Classical in
/-- Embedding of `TSMT$CircleChordParams` (circle-util-functions.ts, lines
78-92): sanitize the radius (negative becomes `0.05`), clamp the distance to
`[0, r]`, then chord length `2*sqrt(h*(2r-h))` with `h = r - d`, central
angle `acos(d/r)` and area `0.5*r^2*(theta - sin theta)`. -/
noncomputable def TSMT_CircleChordParams (radius dist : ℝ) : ChordResult :=
  let r := if radius < 0 then 1 / 20 else radius
  let d0 := max 0 dist
  let d := min r d0
  let h := r - d
  let theta := Real.arccos (d / r)
  let len := 2 * Real.sqrt (h * (2 * r - h))
  let area := 1 / 2 * r * r * (theta - Real.sin theta)
  ⟨len, theta, area⟩

/-- Quartic Taylor estimate: `cos 0.93 < 3/5` (so `arccos (3/5) < 0.93`). -/
lemma cos_ninety_three_hundredths_lt : Real.cos (93 / 100) < 3 / 5 := by
  have ha : |(93 / 400 : ℝ)| ≤ 1 := by rw [abs_of_nonneg] <;> norm_num
  have hs := Real.sin_bound ha
  have hc := Real.cos_bound ha
  rw [abs_of_nonneg (by norm_num : (0 : ℝ) ≤ 93 / 400), abs_le] at hs hc
  obtain ⟨hs1, hs2⟩ := hs
  obtain ⟨hc1, hc2⟩ := hc
  have hs_lo : (23025 / 100000 : ℝ) ≤ Real.sin (93 / 400) := by nlinarith
  have hc_lo : (97281 / 100000 : ℝ) ≤ Real.cos (93 / 400) := by nlinarith
  have hsp : 0 < Real.sin (93 / 400) := by linarith
  have hcp : 0 < Real.cos (93 / 400) := by linarith
  have hdouble : Real.sin (93 / 200) =
      2 * Real.sin (93 / 400) * Real.cos (93 / 400) := by
    rw [show (93 / 200 : ℝ) = 2 * (93 / 400) by norm_num, Real.sin_two_mul]
  have hcos : Real.cos (93 / 100) = 1 - 2 * Real.sin (93 / 200) ^ 2 := by
    rw [show (93 / 100 : ℝ) = 2 * (93 / 200) by norm_num, Real.cos_two_mul',
      Real.cos_sq']
    ring
  have hS : (22398 / 100000 : ℝ) ≤ Real.sin (93 / 400) * Real.cos (93 / 400) := by
    nlinarith [mul_nonneg (by linarith : (0 : ℝ) ≤ Real.sin (93 / 400) - 23025 / 100000)
      (by linarith : (0 : ℝ) ≤ Real.cos (93 / 400) - 97281 / 100000)]
  rw [hcos, hdouble]
  nlinarith [hS, mul_pos hsp hcp,
    mul_self_nonneg (Real.sin (93 / 400) * Real.cos (93 / 400) - 22398 / 100000)]

/-- Quartic Taylor estimate: `3/5 < cos 0.925` (so `0.925 < arccos (3/5)`). -/
lemma cos_thirty_seven_fortieths_gt : (3 / 5 : ℝ) < Real.cos (37 / 40) := by
  have ha : |(37 / 160 : ℝ)| ≤ 1 := by rw [abs_of_nonneg] <;> norm_num
  have hs := Real.sin_bound ha
  have hc := Real.cos_bound ha
  rw [abs_of_nonneg (by norm_num : (0 : ℝ) ≤ 37 / 160), abs_le] at hs hc
  obtain ⟨hs1, hs2⟩ := hs
  obtain ⟨hc1, hc2⟩ := hc
  have hs_hi : Real.sin (37 / 160) ≤ (22934 / 100000 : ℝ) := by nlinarith
  have hc_hi : Real.cos (37 / 160) ≤ (97342 / 100000 : ℝ) := by nlinarith
  have hsp : 0 < Real.sin (37 / 160) := by nlinarith
  have hcp : 0 < Real.cos (37 / 160) := by nlinarith
  have hdouble : Real.sin (37 / 80) =
      2 * Real.sin (37 / 160) * Real.cos (37 / 160) := by
    rw [show (37 / 80 : ℝ) = 2 * (37 / 160) by norm_num, Real.sin_two_mul]
  have hcos : Real.cos (37 / 40) = 1 - 2 * Real.sin (37 / 80) ^ 2 := by
    rw [show (37 / 40 : ℝ) = 2 * (37 / 80) by norm_num, Real.cos_two_mul',
      Real.cos_sq']
    ring
  have hS : Real.sin (37 / 160) * Real.cos (37 / 160) ≤ (22325 / 100000 : ℝ) := by
    nlinarith [mul_nonneg (by linarith : (0 : ℝ) ≤ 22934 / 100000 - Real.sin (37 / 160))
      (by linarith : (0 : ℝ) ≤ 97342 / 100000 - Real.cos (37 / 160))]
  rw [hcos, hdouble]
  nlinarith [hS, mul_pos hsp hcp,
    mul_self_nonneg (22325 / 100000 - Real.sin (37 / 160) * Real.cos (37 / 160))]

/-- Numeric bracketing of the central angle of the chord scenario:
`0.925 < arccos (3/5) < 0.93` (the true value is `0.92730`). -/
lemma arccos_three_fifths_bounds :
    (37 / 40 : ℝ) < Real.arccos (3 / 5) ∧ Real.arccos (3 / 5) < 93 / 100 := by
  have hmem : Real.arccos (3 / 5) ∈ Set.Icc (0 : ℝ) (Real.pi) :=
    Set.mem_Icc.mpr ⟨Real.arccos_nonneg _, Real.arccos_le_pi _⟩
  have hpi3 := Real.pi_gt_three
  have hmemA : (37 / 40 : ℝ) ∈ Set.Icc (0 : ℝ) (Real.pi) :=
    Set.mem_Icc.mpr ⟨by norm_num, by linarith⟩
  have hmemB : (93 / 100 : ℝ) ∈ Set.Icc (0 : ℝ) (Real.pi) :=
    Set.mem_Icc.mpr ⟨by norm_num, by linarith⟩
  have hval : Real.cos (Real.arccos (3 / 5)) = 3 / 5 :=
    Real.cos_arccos (by norm_num) (by norm_num)
  constructor
  · refine (Real.strictAntiOn_cos.lt_iff_lt hmem hmemA).mp ?_
    rw [hval]
    exact cos_thirty_seven_fortieths_gt
  · refine (Real.strictAntiOn_cos.lt_iff_lt hmemB hmem).mp ?_
    rw [hval]
    exact cos_ninety_three_hundredths_lt

/-- Evaluation of the chord-parameter record at the spec scenario
`r = 10, d = 6`: chord length exactly 16, central angle `arccos (3/5)`,
segment area `50*(arccos (3/5) - 4/5)`. -/
lemma chordParams_ten_six_eval :
    TSMT_CircleChordParams 10 6 =
      ⟨16, Real.arccos (3 / 5), 50 * (Real.arccos (3 / 5) - 4 / 5)⟩ := by
  simp only [TSMT_CircleChordParams]
  rw [if_neg (by norm_num : ¬ (10 : ℝ) < 0),
    show max (0 : ℝ) 6 = 6 from max_eq_right (by norm_num),
    show min (10 : ℝ) 6 = 6 from min_eq_right (by norm_num)]
  have hl : Real.sqrt ((10 - 6) * (2 * 10 - (10 - 6)) : ℝ) = 8 := by
    rw [show ((10 - 6) * (2 * 10 - (10 - 6)) : ℝ) = 8 ^ 2 by norm_num]
    exact Real.sqrt_sq (by norm_num)
  have hsin : Real.sin (Real.arccos ((6 : ℝ) / 10)) = 4 / 5 := by
    rw [Real.sin_arccos, show (1 - ((6 : ℝ) / 10) ^ 2 : ℝ) = (4 / 5) ^ 2 by norm_num]
    exact Real.sqrt_sq (by norm_num)
  rw [hl, hsin, show ((6 : ℝ) / 10) = 3 / 5 by norm_num]
  refine congrArg₂ (fun u v => ChordResult.mk u (Real.arccos (3 / 5)) v) ?_ ?_
  · norm_num
  · ring

/-- Counterexample to C7 as stated: at `r = 10, d = 6` the returned segment
area is `50*(arccos (3/5) - 4/5)`, between 6.25 and 6.5 — more than 10 away
from the claimed `17.25`, beyond any floating tolerance. -/
theorem tsmt_chordParams_area_not_seventeen :
    |(TSMT_CircleChordParams 10 6).area - 69 / 4| > 10 := by
  rw [chordParams_ten_six_eval]
  obtain ⟨hlo, hhi⟩ := arccos_three_fifths_bounds
  have harea : (⟨16, Real.arccos (3 / 5), 50 * (Real.arccos (3 / 5) - 4 / 5)⟩ :
      ChordResult).area = 50 * (Real.arccos (3 / 5) - 4 / 5) := rfl
  rw [harea, abs_of_neg (by nlinarith)]
  nlinarith

/-- C7 (amended): for `radius ≥ 0`, `TSMT$CircleChordParams` clamps the
distance to `[0, r]` and returns chord length `2*sqrt(h*(2r-h))` with
`h = r - d`, central angle `acos(d/r)` and area `0.5*r^2*(theta - sin theta)`;
at `r = 10, d = 6` this gives `l = 16` exactly, `theta = arccos (3/5)`
(between 0.925 and 0.93, so `theta ≈ 0.9273`), and area
`50*(arccos (3/5) - 4/5)` between 6.25 and 6.5 (about 6.36 — not 17.25). -/
theorem tsmt_chordParams_formulas_and_scenario :
    (∀ radius dist : ℝ, 0 ≤ radius →
      TSMT_CircleChordParams radius dist =
        ⟨2 * Real.sqrt ((radius - min radius (max 0 dist)) *
            (2 * radius - (radius - min radius (max 0 dist)))),
          Real.arccos (min radius (max 0 dist) / radius),
          1 / 2 * radius * radius *
            (Real.arccos (min radius (max 0 dist) / radius) -
              Real.sin (Real.arccos (min radius (max 0 dist) / radius)))⟩) ∧
    (TSMT_CircleChordParams 10 6).l = 16 ∧
    (TSMT_CircleChordParams 10 6).theta = Real.arccos (3 / 5) ∧
    (37 / 40 : ℝ) < (TSMT_CircleChordParams 10 6).theta ∧
    (TSMT_CircleChordParams 10 6).theta < 93 / 100 ∧
    (TSMT_CircleChordParams 10 6).area = 50 * (Real.arccos (3 / 5) - 4 / 5) ∧
    (25 / 4 : ℝ) < (TSMT_CircleChordParams 10 6).area ∧
    (TSMT_CircleChordParams 10 6).area < 13 / 2 := by
  obtain ⟨hlo, hhi⟩ := arccos_three_fifths_bounds
  refine ⟨?_, ?_, ?_, ?_, ?_, ?_, ?_, ?_⟩
  · intro radius dist hrad
    simp only [TSMT_CircleChordParams]
    rw [if_neg (not_lt.mpr hrad)]
  all_goals rw [chordParams_ten_six_eval]
  · exact hlo
  · exact hhi
  · show (25 / 4 : ℝ) < 50 * (Real.arccos (3 / 5) - 4 / 5)
    nlinarith
  · show 50 * (Real.arccos (3 / 5) - 4 / 5) < (13 / 2 : ℝ)
    nlinarith

/-- Witness for C7 (amended): the general formula conjunct applied at
`r = 10, d = 6`. -/
theorem tsmt_chordParams_formulas_and_scenario_witness :
    TSMT_CircleChordParams 10 6 =
      ⟨2 * Real.sqrt ((10 - min 10 (max 0 6)) *
          (2 * 10 - (10 - min 10 (max 0 6)))),
        Real.arccos (min 10 (max 0 6) / 10),
        1 / 2 * 10 * 10 *
          (Real.arccos (min 10 (max 0 6) / 10) -
            Real.sin (Real.arccos (min 10 (max 0 6) / 10)))⟩ :=
  (tsmt_chordParams_formulas_and_scenario.1 10 6 (by norm_num))

end PicKernel
